/-
Verification of the WAVE file reader of this repository
(src/audio_input/WaveFileReader.cpp).

The reader is embedded shallowly:

* The byte source (a `std::ifstream` opened in binary mode) is a list of
  bytes together with a cursor.  `read<T>` and relative `seekg` come from
  the repository's `io_tools.h`, which is not part of the provided sources;
  they are modelled from the spec: fixed-width little-endian reads that
  fail (`IOError`) when the source is exhausted, a 24-bit read that
  zero-extends three little-endian bytes, and a relative seek.
* C++ `int` arithmetic is modelled on `ℤ` with truncated division
  (`Int.tdiv`), and the `uint32_t → int` narrowing as `toSigned32`.
  Divisions whose C++ counterpart divides by zero (undefined behaviour)
  are modelled as a distinct `divByZero` outcome.
* IEEE-754 binary32 (`float`) values are modelled as exact rationals; each
  arithmetic operation rounds its exact rational result to 24 significant
  bits with round-to-nearest, ties-to-even (`rnd32`).  Exponent overflow
  and subnormal underflow are not modelled; every value decoded or
  normalized by this reader stays far inside the binary32 range.
* Exceptions are modelled with `Except`: `throw` sites of the constructor
  become `WaveError` values.
-/
import Mathlib

set_option maxRecDepth 8000
set_option maxHeartbeats 1000000

namespace WaveVerify

/-- Failure modes of the reader.  `runtime_error` throw sites of the
constructor become the format errors (each carrying the datum named in its
message); stream failures become `ioError`; `divByZero` marks the spots
where the C++ code would divide by zero (undefined behaviour); `outOfFuel`
is an artefact of the fuel-bounded chunk loop and never occurs on inputs
considered by the theorems below. -/
inductive WaveError where
  | ioError
  | notRiff
  | notWave (tag : ℕ)
  | unsupportedIntDepth (bits : ℕ)
  | unsupportedFloatDepth (bits : ℕ)
  | unsupportedCodec
  | unsupportedOrganization
  | divByZero
  | outOfFuel
  deriving DecidableEq

/-- Whether an error corresponds to a `FormatError` (a `runtime_error`
thrown by the constructor), as opposed to an I/O failure or undefined
behaviour. -/
def WaveError.isFormatError : WaveError → Bool
  | .notRiff | .notWave _ | .unsupportedIntDepth _ | .unsupportedFloatDepth _
  | .unsupportedCodec | .unsupportedOrganization => true
  | _ => false

/-- Modelled from the spec: the closed sample-format set declared in the
missing header `WaveFileReader.h` ({UInt8, Int16, Int24, Float32}). -/
inductive SampleFormat where
  | UInt8
  | Int16
  | Int24
  | Float32
  deriving DecidableEq

/-- Modelled from the spec: the seekable byte source behind the reader —
the full byte contents plus a cursor.  The cursor is an integer because
relative seeks may move backwards. -/
structure WFile where
  bytes : List ℕ
  pos : ℤ
  deriving DecidableEq

/-- Value of `n` bytes read little-endian starting at index `p`. -/
def leBytesAt : List ℕ → ℕ → ℕ → ℕ
  | _, _, 0 => 0
  | bs, p, n + 1 => bs.getD p 0 + 256 * leBytesAt bs (p + 1) n

/-- Modelled from the spec: `little_endian::read<T>` from `io_tools.h` — an
exact-size little-endian read of `n` bytes that fails with `IOError` when
the source is exhausted.  The 24-bit variant (`n = 3`) zero-extends. -/
def readLE (n : ℕ) (f : WFile) : Except WaveError (ℕ × WFile) :=
  if 0 ≤ f.pos ∧ f.pos.toNat + n ≤ f.bytes.length then
    .ok (leBytesAt f.bytes f.pos.toNat n, ⟨f.bytes, f.pos + n⟩)
  else
    .error .ioError

/-- Modelled from the spec: `file.seekg(off, file.cur)` — a relative seek.
Seeking before the start of the source fails. -/
def seekRel (off : ℤ) (f : WFile) : Except WaveError WFile :=
  if 0 ≤ f.pos + off then .ok ⟨f.bytes, f.pos + off⟩ else .error .ioError

/-- Reinterpret a 16-bit unsigned value as two's-complement `int16_t`. -/
def toSigned16 (w : ℕ) : ℤ :=
  if w < 32768 then (w : ℤ) else (w : ℤ) - 65536

/-- Reinterpret a 32-bit unsigned value as a two's-complement 32-bit
`int` (the effect of the C++ `uint32_t → int` narrowing, and of reading an
`int` whose bit pattern is `w`). -/
def toSigned32 (w : ℕ) : ℤ :=
  if w < 2147483648 then (w : ℤ) else (w : ℤ) - 4294967296

/-- Modelled from the spec: `fourcc` from `io_tools.h` packs four ASCII
characters so that the packed value equals the little-endian read of those
four bytes in file order. -/
def fourcc (a b c d : ℕ) : ℕ := a + 256 * b + 65536 * c + 16777216 * d

/-- fourcc('R','I','F','F') -/
def riffId : ℕ := fourcc 82 73 70 70

/-- fourcc('W','A','V','E') -/
def waveFormId : ℕ := fourcc 87 65 86 69

/-- fourcc('f','m','t',' ') -/
def fmtId : ℕ := fourcc 102 109 116 32

/-- fourcc('d','a','t','a') -/
def dataId : ℕ := fourcc 100 97 116 97

/-- `roundToEven(i) = (i + 1) & ~1`: clearing the lowest bit of `i + 1`,
i.e. `2 * ⌊(i + 1) / 2⌋` on a two's-complement `int`. -/
def roundToEven (i : ℤ) : ℤ := 2 * Int.fdiv (i + 1) 2

/-- Powers of two as rationals, for negative exponents too. -/
def pow2z (k : ℤ) : ℚ :=
  if 0 ≤ k then ((2 ^ k.toNat : ℕ) : ℚ) else 1 / ((2 ^ (-k).toNat : ℕ) : ℚ)

/-- Fuel-bounded base-2 logarithm (the fuel used below always exceeds the
bit length of the argument, so it never runs out). -/
def log2fuel : ℕ → ℕ → ℕ
  | 0, _ => 0
  | fuel + 1, n => if n < 2 then 0 else log2fuel fuel (n / 2) + 1

/-- Largest `e : ℤ` with `2^e ≤ n / d`, for `n, d ≥ 1`: the difference of
the integer logarithms is off by at most one, and is then adjusted by
comparing `n / d` against `2^e` exactly (`n * 2^(-e)⁺ ≥ d * 2^e⁺`). -/
def floorLog2 (n d : ℕ) : ℤ :=
  let e0 : ℤ := (log2fuel 64 n : ℤ) - (log2fuel 64 d : ℤ)
  if n * 2 ^ (-e0).toNat < d * 2 ^ e0.toNat then e0 - 1
  else if d * 2 ^ (e0 + 1).toNat ≤ n * 2 ^ (-(e0 + 1)).toNat then e0 + 1
  else e0

/-- Round `N / D` (with `D > 0`) to the nearest natural number, ties to
even. -/
def halfEvenDiv (N D : ℕ) : ℕ :=
  let q := N / D
  let r := N % D
  if 2 * r < D then q
  else if D < 2 * r then q + 1
  else if q % 2 = 0 then q else q + 1

/-- Model of an IEEE-754 binary32 value: a pair `(sig, exp)` denoting the
dyadic rational `sig * 2^exp`.  Every finite binary32 value has this form. -/
abbrev F32 : Type := ℤ × ℤ

/-- Round the exact rational `num / den` to binary32, round-to-nearest
with ties to even: locate the binade, compute the 24-bit mantissa by a
correctly rounded integer division, and attach the exponent.  Exponent
overflow and subnormal underflow are not modelled (no value handled by
this reader approaches them); `den = 0` never occurs on the reader's
inputs. -/
def rnd32 (num : ℤ) (den : ℕ) : F32 :=
  if num = 0 ∨ den = 0 then ((0 : ℤ), (0 : ℤ))
  else
    let n := num.natAbs
    let e := floorLog2 n den
    let m := halfEvenDiv (n * 2 ^ (23 - e).toNat) (den * 2 ^ (e - 23).toNat)
    (if num < 0 then -(m : ℤ) else (m : ℤ), e - 23)

/-- The rational value of a binary32 model value. -/
def F32.toQ (a : F32) : ℚ := (a.1 : ℚ) * pow2z a.2

/-- binary32 division: the exact quotient, correctly rounded. -/
def fdiv32 (a b : F32) : F32 :=
  let k := a.2 - b.2
  rnd32 ((if b.1 < 0 then -a.1 else a.1) * 2 ^ k.toNat) (b.1.natAbs * 2 ^ (-k).toNat)

/-- binary32 multiplication: the exact product, correctly rounded. -/
def fmul32 (a b : F32) : F32 :=
  let e := a.2 + b.2
  rnd32 (a.1 * b.1 * 2 ^ e.toNat) (2 ^ (-e).toNat)

/-- binary32 subtraction: the exact difference, correctly rounded. -/
def fsub32 (a b : F32) : F32 :=
  let e := min a.2 b.2
  rnd32 ((a.1 * 2 ^ (a.2 - e).toNat - b.1 * 2 ^ (b.2 - e).toNat) * 2 ^ e.toNat)
    (2 ^ (-e).toNat)

/-- `static_cast<float>` of an `int`: the integer, rounded to binary32. -/
def floatOfInt (n : ℤ) : F32 := rnd32 n 1

/-- toNormalizedFloat from WaveFileReader.cpp:
`(static_cast<float>(value - min) / (max - min) * 2) - 1`, with every
`float` operation rounding to binary32.  (`value - min` and `max - min`
are exact `int` subtractions; `max - min` and the `int` literal `2` are
converted to `float` before use.) -/
def toNormalizedFloat (value lo hi : ℤ) : ℚ :=
  F32.toQ (fsub32 (fmul32 (fdiv32 (floatOfInt (value - lo)) (floatOfInt (hi - lo)))
    (floatOfInt 2)) (floatOfInt 1))

/-- Modelled from the spec: `read<float>` interprets four little-endian
bytes as an IEEE-754 binary32 bit pattern (sign, 8-bit biased exponent,
23-bit mantissa).  Finite patterns only; the claims below never touch
exponent 255 (infinities/NaNs, which have no rational value). -/
def bitsToFloat32 (w : ℕ) : ℚ :=
  let sign := w / 2147483648 % 2
  let e := w / 8388608 % 256
  let m := w % 8388608
  let mag : ℚ :=
    if e = 0 then (m : ℚ) * pow2z (-149)
    else ((8388608 + m : ℕ) : ℚ) * pow2z ((e : ℤ) - 150)
  if sign = 1 then -mag else mag

/-- The two's-complement fix-up of the Int24 branch of `getNextSample`:
`if (raw & 0x800000) raw |= 0xFF000000;` on the 32-bit `int` holding the
zero-extended 24-bit value, the result read back as a signed `int`. -/
def fixTwosComplement (raw : ℕ) : ℤ :=
  if raw &&& 8388608 ≠ 0 then toSigned32 (raw ||| 4278190080) else (raw : ℤ)

/-- The constructor's local scan state: `channelCount`, `frameRate` and
`sampleFormat` members (unset before a fmt chunk is seen) and the local
`int bytesPerSample = 0`. -/
structure ScanVars where
  channelCount : ℕ
  frameRate : ℕ
  sampleFormat : Option SampleFormat
  bytesPerSample : ℕ
  deriving DecidableEq

/-- The `switch (codec)` of the fmt-chunk case ("Determine sample
format"): PCM picks the container size from bits-per-sample (`== 8` →
UInt8/1; `<= 16` → Int16/2; `<= 24` → Int24/3; otherwise a FormatError
naming the bit depth) and then checks `bytesPerSample != frameSize /
channelCount` (C++ integer division, which divides by zero when
`channelCount = 0`); Float accepts exactly 32 bits with no frame-size
check; other codecs are rejected. -/
def deriveSampleFormat (codec channelCount frameSize bitsPerSample : ℕ) :
    Except WaveError (SampleFormat × ℕ) :=
  if codec = 1 then
    (do
      let (sampleFormat, bytesPerSample) ←
        if bitsPerSample = 8 then pure (SampleFormat.UInt8, 1)
        else if bitsPerSample ≤ 16 then pure (SampleFormat.Int16, 2)
        else if bitsPerSample ≤ 24 then pure (SampleFormat.Int24, 3)
        else throw (WaveError.unsupportedIntDepth bitsPerSample)
      if channelCount = 0 then throw WaveError.divByZero
      else if bytesPerSample ≠ frameSize / channelCount then
        throw WaveError.unsupportedOrganization
      else pure (sampleFormat, bytesPerSample) :
      Except WaveError (SampleFormat × ℕ))
  else if codec = 3 then
    if bitsPerSample = 32 then pure (SampleFormat.Float32, 4)
    else throw (WaveError.unsupportedFloatDepth bitsPerSample)
  else throw WaveError.unsupportedCodec

/-- The fmt-chunk case of the constructor's chunk loop
(WaveFileReader.cpp, `case fourcc('f','m','t',' ')`): read codec, channel
count, frame rate, byte rate (discarded), frame size and bits per sample;
skip the declared remainder of the chunk; then derive the sample format
via `deriveSampleFormat`. -/
def processFmtChunk (chunkSize : ℤ) (_v : ScanVars) (f : WFile) :
    Except WaveError (ScanVars × WFile) := do
  let (codec, f) ← readLE 2 f
  let (channelCount, f) ← readLE 2 f
  let (frameRate, f) ← readLE 4 f
  let (_, f) ← readLE 4 f
  let (frameSize, f) ← readLE 2 f
  let (bitsPerSample, f) ← readLE 2 f
  let f ← seekRel (roundToEven chunkSize - 16) f
  let (sampleFormat, bytesPerSample) ←
    deriveSampleFormat codec channelCount frameSize bitsPerSample
  pure ({ channelCount, frameRate, sampleFormat := some sampleFormat,
          bytesPerSample }, f)

/-- The constructor's chunk loop: read a chunk id and size, dispatch on
the id, and repeat until the data chunk is reached.  Returns the final
scan state, `remainingSamples`, `frameCount` and the file (cursor at the
first sample byte).  The loop is fuel-bounded; the fuel used by
`WaveFileReader.construct` suffices for every input that terminates. -/
def scanChunks : ℕ → ScanVars → WFile → Except WaveError (ScanVars × ℤ × ℤ × WFile)
  | 0, _, _ => throw WaveError.outOfFuel
  | fuel + 1, v, f => do
    let (chunkId, f) ← readLE 4 f
    let (chunkSizeU, f) ← readLE 4 f
    let chunkSize := toSigned32 chunkSizeU
    if chunkId = fmtId then do
      let (v, f) ← processFmtChunk chunkSize v f
      scanChunks fuel v f
    else if chunkId = dataId then
      if v.bytesPerSample = 0 then throw WaveError.divByZero
      else
        let remainingSamples := Int.tdiv chunkSize v.bytesPerSample
        if v.channelCount = 0 then throw WaveError.divByZero
        else pure (v, remainingSamples, Int.tdiv remainingSamples v.channelCount, f)
    else do
      let f ← seekRel (roundToEven chunkSize) f
      scanChunks fuel v f

/-- The decode-ready stream: the members of the `WaveFileReader` class
after construction. -/
structure WaveFileReader where
  sampleFormat : SampleFormat
  channelCount : ℕ
  frameRate : ℕ
  frameCount : ℤ
  remainingSamples : ℤ
  file : WFile
  deriving DecidableEq

/-- The `WaveFileReader` constructor: validate the RIFF signature and the
WAVE form type, then scan chunks until the data chunk. -/
def WaveFileReader.construct (bytes : List ℕ) : Except WaveError WaveFileReader := do
  let f : WFile := ⟨bytes, 0⟩
  let (rootChunkId, f) ← readLE 4 f
  if rootChunkId ≠ riffId then throw WaveError.notRiff
  else do
    let (_, f) ← readLE 4 f
    let (formType, f) ← readLE 4 f
    if formType ≠ waveFormId then throw (WaveError.notWave formType)
    else do
      let (v, remainingSamples, frameCount, f) ←
        scanChunks (bytes.length + 1) ⟨0, 0, none, 0⟩ f
      pure { sampleFormat := v.sampleFormat.getD SampleFormat.UInt8,
             channelCount := v.channelCount, frameRate := v.frameRate,
             frameCount, remainingSamples, file := f }

/-- Result of one `getNextSample` call: `false` (stream exhausted), an
I/O failure while reading sample bytes, or a decoded sample together with
the updated reader state. -/
inductive NextResult where
  | noMore
  | ioError
  | next (sample : ℚ) (s : WaveFileReader)
  deriving DecidableEq

/-- `WaveFileReader::getNextSample`: return `false` when no samples
remain; otherwise decrement `remainingSamples` and decode one sample per
the active format. -/
def getNextSample (s : WaveFileReader) : NextResult :=
  if s.remainingSamples = 0 then .noMore
  else
    match s.sampleFormat with
    | .UInt8 =>
      match readLE 1 s.file with
      | .error _ => .ioError
      | .ok (raw, f) =>
        .next (toNormalizedFloat (raw : ℤ) 0 255)
          { s with remainingSamples := s.remainingSamples - 1, file := f }
    | .Int16 =>
      match readLE 2 s.file with
      | .error _ => .ioError
      | .ok (w, f) =>
        .next (toNormalizedFloat (toSigned16 w) (-32768) 32767)
          { s with remainingSamples := s.remainingSamples - 1, file := f }
    | .Int24 =>
      match readLE 3 s.file with
      | .error _ => .ioError
      | .ok (w, f) =>
        .next (toNormalizedFloat (fixTwosComplement w) (-8388608) 8388607)
          { s with remainingSamples := s.remainingSamples - 1, file := f }
    | .Float32 =>
      match readLE 4 s.file with
      | .error _ => .ioError
      | .ok (w, f) =>
        .next (bitsToFloat32 w)
          { s with remainingSamples := s.remainingSamples - 1, file := f }

/-- Bytes read from the data region per sample of each format (the value
the constructor assigns to `bytesPerSample` alongside the format). -/
def formatBytesPerSample : SampleFormat → ℕ
  | .UInt8 => 1
  | .Int16 => 2
  | .Int24 => 3
  | .Float32 => 4

/-- Apply `getNextSample` `n` times, requiring every call to succeed. -/
def iterateSamples : ℕ → WaveFileReader → Option WaveFileReader
  | 0, s => some s
  | n + 1, s =>
    match getNextSample s with
    | .next _ s' => iterateSamples n s'
    | _ => none

/-! Concrete containers used as test inputs for the theorems below. -/

/-- A 16-bit value in on-disk little-endian byte order. -/
def u16le (n : ℕ) : List ℕ := [n % 256, n / 256 % 256]

/-- A 32-bit value in on-disk little-endian byte order. -/
def u32le (n : ℕ) : List ℕ := [n % 256, n / 256 % 256, n / 65536 % 256, n / 16777216 % 256]

/-- "RIFF", a (discarded) total size, "WAVE". -/
def riffHeader : List ℕ := [82, 73, 70, 70] ++ u32le 36 ++ [87, 65, 86, 69]

/-- A 16-byte fmt chunk with the given codec, channel count, frame rate,
frame size and bits per sample (byte rate field zero). -/
def fmtChunk (codec cc rate fs bits : ℕ) : List ℕ :=
  [102, 109, 116, 32] ++ u32le 16 ++ u16le codec ++ u16le cc ++ u32le rate ++
    u32le 0 ++ u16le fs ++ u16le bits

/-- A data chunk holding the given payload bytes. -/
def dataChunk (d : List ℕ) : List ℕ := [100, 97, 116, 97] ++ u32le d.length ++ d

/-- PCM, mono, 7 bits per sample, frame size 2 — a sub-byte bit depth. -/
def pcm7bitFile : List ℕ := riffHeader ++ fmtChunk 1 1 8000 2 7 ++ dataChunk [1, 2]

/-- PCM, stereo, 16 bits per sample, but frame size 5: the declared frame
size is not `bytesPerSample × channelCount` for any sample size, yet
`5 / 2 = 2` matches the derived bytes-per-sample. -/
def pcmOddFrameFile : List ℕ := riffHeader ++ fmtChunk 1 2 8000 5 16 ++ dataChunk [1, 2, 3, 4]

/-- A container whose data chunk comes before any fmt chunk. -/
def dataFirstFile : List ℕ := riffHeader ++ dataChunk [0, 0, 0, 0]

/-- PCM, stereo, 8 bits per sample, with a 3-byte data chunk: one and a
half frames. -/
def pcmPartialFrameFile : List ℕ := riffHeader ++ fmtChunk 1 2 8000 2 8 ++ dataChunk [9, 9, 9]

/-- Float codec, stereo, 32 bits per sample, with an absurd declared frame
size of 999 bytes. -/
def floatBadOrgFile : List ℕ :=
  riffHeader ++ fmtChunk 3 2 8000 999 32 ++ dataChunk [0, 0, 0, 0, 0, 0, 0, 0]

/-- A container with an unknown chunk ("LIST") of odd declared size 5
(padded on disk to 6 bytes) before the fmt and data chunks. -/
def oddChunkFile : List ℕ :=
  riffHeader ++ ([76, 73, 83, 84] ++ u32le 5 ++ [1, 2, 3, 4, 5, 0]) ++
    fmtChunk 1 1 8000 1 8 ++ dataChunk [7]

/-- A file starting with "RIFX" instead of "RIFF". -/
def rifxFile : List ℕ := [82, 73, 70, 88] ++ u32le 36 ++ [87, 65, 86, 69]

/-- A RIFF container whose form type is "AIFF" instead of "WAVE". -/
def riffAiffFile : List ℕ := [82, 73, 70, 70] ++ u32le 36 ++ [65, 73, 70, 70]

/-- The stream obtained from `pcm7bitFile`. -/
def pcm7bitReader : WaveFileReader := ⟨.Int16, 1, 8000, 1, 1, ⟨pcm7bitFile, 44⟩⟩

/-- The stream obtained from `pcmOddFrameFile`. -/
def oddFrameReader : WaveFileReader := ⟨.Int16, 2, 8000, 1, 2, ⟨pcmOddFrameFile, 44⟩⟩

/-- The stream obtained from `pcmPartialFrameFile`. -/
def partialFrameReader : WaveFileReader :=
  ⟨.UInt8, 2, 8000, 1, 3, ⟨pcmPartialFrameFile, 44⟩⟩

/-- The stream obtained from `floatBadOrgFile`. -/
def floatBadOrgReader : WaveFileReader :=
  ⟨.Float32, 2, 8000, 1, 2, ⟨floatBadOrgFile, 44⟩⟩

/-- The stream obtained from `oddChunkFile`. -/
def oddChunkReader : WaveFileReader := ⟨.UInt8, 1, 8000, 1, 1, ⟨oddChunkFile, 58⟩⟩

/-- A one-sample Int24 stream whose payload bytes FF FF 7F hold the
little-endian value 0x7FFFFF. -/
def int24MaxStream : WaveFileReader := ⟨.Int24, 1, 8000, 1, 1, ⟨[255, 255, 127], 0⟩⟩

/-- A one-sample Int24 stream whose payload bytes 00 00 80 hold the
little-endian value 0x800000. -/
def int24MinStream : WaveFileReader := ⟨.Int24, 1, 8000, 1, 1, ⟨[0, 0, 128], 0⟩⟩

/-- A one-sample Float32 stream whose payload holds the bit pattern of
0.5 (0x3F000000). -/
def floatHalfStream : WaveFileReader := ⟨.Float32, 1, 8000, 1, 1, ⟨[0, 0, 0, 63], 0⟩⟩

/-- A three-sample 8-bit mono stream. -/
def uint8CountStream : WaveFileReader := ⟨.UInt8, 1, 8000, 3, 3, ⟨[0, 255, 128], 0⟩⟩

/-- An exhausted stream. -/
def exhaustedStream : WaveFileReader := ⟨.UInt8, 1, 8000, 0, 0, ⟨[], 0⟩⟩

/-! Helper lemmas shared by the theorems below. -/

lemma readLE_ok (n : ℕ) (bs : List ℕ) (pz : ℤ) (p : ℕ) (hp : pz = (p : ℤ))
    (h : p + n ≤ bs.length) :
    readLE n ⟨bs, pz⟩ = .ok (leBytesAt bs p n, ⟨bs, ((p + n : ℕ) : ℤ)⟩) := by
  subst hp
  rw [readLE, if_pos ⟨by positivity, by simpa using h⟩]
  simp

lemma readLE_ok_inv {n : ℕ} {f f' : WFile} {w : ℕ}
    (h : readLE n f = .ok (w, f')) :
    f'.bytes = f.bytes ∧ f'.pos = f.pos + n := by
  rw [readLE] at h
  split at h
  · injection h with h'
    injection h' with hw hf'
    rw [← hf']
    exact ⟨rfl, rfl⟩
  · exact absurd h (by simp)

lemma seekRel_ok_inv {off : ℤ} {f f' : WFile}
    (h : seekRel off f = .ok f') :
    f'.bytes = f.bytes ∧ f'.pos = f.pos + off := by
  rw [seekRel] at h
  split at h
  · injection h with h'
    rw [← h']
    exact ⟨rfl, rfl⟩
  · exact absurd h (by simp)

lemma getNextSample_noMore_iff (s : WaveFileReader) :
    getNextSample s = .noMore ↔ s.remainingSamples = 0 := by
  constructor
  · intro h
    by_contra hne
    rw [getNextSample, if_neg hne] at h
    split at h <;> split at h <;> simp_all
  · intro h
    rw [getNextSample, if_pos h]

lemma getNextSample_next_inv {s : WaveFileReader} {q : ℚ} {s' : WaveFileReader}
    (h : getNextSample s = .next q s') :
    s'.remainingSamples = s.remainingSamples - 1 ∧ s'.sampleFormat = s.sampleFormat ∧
      s'.file.bytes = s.file.bytes ∧
      s'.file.pos = s.file.pos + formatBytesPerSample s.sampleFormat := by
  rw [getNextSample] at h
  split at h
  · simp_all
  · split at h <;> split at h <;> simp_all
    all_goals
      obtain ⟨hq, hs⟩ := h
      subst hs
      rename_i hread
      obtain ⟨hb, hp⟩ := readLE_ok_inv hread
      simp_all [formatBytesPerSample]

lemma getNextSample_next_ne_zero {s : WaveFileReader} {q : ℚ} {s' : WaveFileReader}
    (h : getNextSample s = .next q s') : s.remainingSamples ≠ 0 := by
  intro h0
  rw [getNextSample, if_pos h0] at h
  exact absurd h (by simp)

lemma getNextSample_step (s : WaveFileReader) (hr : s.remainingSamples ≠ 0)
    (hpos : 0 ≤ s.file.pos)
    (hlen : s.file.pos.toNat + formatBytesPerSample s.sampleFormat ≤ s.file.bytes.length) :
    ∃ q, getNextSample s = .next q
      { s with remainingSamples := s.remainingSamples - 1,
               file := ⟨s.file.bytes, s.file.pos + (formatBytesPerSample s.sampleFormat : ℕ)⟩ } := by
  rw [getNextSample, if_neg hr]
  rcases hsf : s.sampleFormat with _ | _ | _ | _ <;>
    simp only [hsf, formatBytesPerSample] at hlen ⊢ <;>
    rw [readLE, if_pos ⟨hpos, hlen⟩] <;>
    exact ⟨_, rfl⟩

lemma iterate_exact : ∀ (n : ℕ) (s : WaveFileReader),
    s.remainingSamples = (n : ℤ) → 0 ≤ s.file.pos →
    s.file.pos.toNat + n * formatBytesPerSample s.sampleFormat ≤ s.file.bytes.length →
    (iterateSamples n s).map (fun t => getNextSample t) = some .noMore := by
  intro n
  induction n with
  | zero =>
    intro s h0 _ _
    rw [iterateSamples]
    simp only [Option.map_some']
    rw [getNextSample, if_pos (by exact_mod_cast h0)]
  | succ n ih =>
    intro s hrem hpos hlen
    have hr : s.remainingSamples ≠ 0 := by rw [hrem]; exact_mod_cast Nat.succ_ne_zero n
    rw [Nat.succ_mul] at hlen
    have hb1 : 1 ≤ formatBytesPerSample s.sampleFormat := by
      rcases s.sampleFormat <;> simp [formatBytesPerSample]
    have hlen1 : s.file.pos.toNat + formatBytesPerSample s.sampleFormat ≤
        s.file.bytes.length := by omega
    obtain ⟨q, hq⟩ := getNextSample_step s hr hpos hlen1
    rw [iterateSamples, hq]
    apply ih
    · show s.remainingSamples - 1 = (n : ℤ)
      omega
    · show (0 : ℤ) ≤ s.file.pos + (formatBytesPerSample s.sampleFormat : ℕ)
      omega
    · show (s.file.pos + (formatBytesPerSample s.sampleFormat : ℕ)).toNat +
        n * formatBytesPerSample s.sampleFormat ≤ s.file.bytes.length
      omega

lemma scanChunks_frameCount : ∀ (fuel : ℕ) (v : ScanVars) (f : WFile) (v' : ScanVars)
    (r fc : ℤ) (f' : WFile), scanChunks fuel v f = .ok (v', r, fc, f') →
    fc = Int.tdiv r v'.channelCount ∧ v'.channelCount ≠ 0 := by
  intro fuel
  induction fuel with
  | zero =>
    intro v f v' r fc f' h
    simp [scanChunks, throw, throwThe, MonadExceptOf.throw] at h
  | succ fuel ih =>
    intro v f v' r fc f' h
    rw [scanChunks] at h
    cases h1 : readLE 4 f with
    | error e => rw [h1] at h; simp [Bind.bind, Except.bind] at h
    | ok p =>
      obtain ⟨cid, f1⟩ := p
      rw [h1] at h
      simp only [Bind.bind, Except.bind] at h
      cases h2 : readLE 4 f1 with
      | error e => rw [h2] at h; simp [Except.bind] at h
      | ok p2 =>
        obtain ⟨szU, f2⟩ := p2
        rw [h2] at h
        simp only [Except.bind] at h
        by_cases hfmt : cid = fmtId
        · rw [if_pos hfmt] at h
          cases h3 : processFmtChunk (toSigned32 szU) v f2 with
          | error e => rw [h3] at h; simp [Except.bind] at h
          | ok p3 =>
            obtain ⟨v2, f3⟩ := p3
            rw [h3] at h
            simp only [Except.bind] at h
            exact ih _ _ _ _ _ _ h
        · rw [if_neg hfmt] at h
          by_cases hdata : cid = dataId
          · rw [if_pos hdata] at h
            by_cases hbps : v.bytesPerSample = 0
            · rw [if_pos hbps] at h
              simp [throw, throwThe, MonadExceptOf.throw] at h
            · rw [if_neg hbps] at h
              by_cases hcc : v.channelCount = 0
              · rw [if_pos hcc] at h
                simp [throw, throwThe, MonadExceptOf.throw] at h
              · rw [if_neg hcc] at h
                simp only [pure, Except.pure] at h
                injection h with h'
                obtain ⟨hv, hr, hfc, hf⟩ : v = v' ∧
                    Int.tdiv (toSigned32 szU) v.bytesPerSample = r ∧
                    Int.tdiv (Int.tdiv (toSigned32 szU) v.bytesPerSample)
                      v.channelCount = fc ∧ f2 = f' := by
                  simpa using h'
                subst hv
                exact ⟨by rw [← hfc, ← hr], hcc⟩
          · rw [if_neg hdata] at h
            cases h3 : seekRel (roundToEven (toSigned32 szU)) f2 with
            | error e => rw [h3] at h; simp [Except.bind] at h
            | ok f3 =>
              rw [h3] at h
              simp only [Except.bind] at h
              exact ih _ _ _ _ _ _ h

lemma construct_ok_inv (b : List ℕ) (s : WaveFileReader)
    (h : WaveFileReader.construct b = .ok s) :
    s.frameCount = Int.tdiv s.remainingSamples s.channelCount ∧ s.channelCount ≠ 0 := by
  rw [WaveFileReader.construct] at h
  cases h1 : readLE 4 ⟨b, 0⟩ with
  | error e => rw [h1] at h; simp [Bind.bind, Except.bind] at h
  | ok p =>
    obtain ⟨rid, f1⟩ := p
    rw [h1] at h
    simp only [Bind.bind, Except.bind] at h
    by_cases hr : rid ≠ riffId
    · rw [if_pos hr] at h
      simp [throw, throwThe, MonadExceptOf.throw] at h
    · rw [if_neg hr] at h
      cases h2 : readLE 4 f1 with
      | error e => rw [h2] at h; simp [Except.bind] at h
      | ok p2 =>
        obtain ⟨sz, f2⟩ := p2
        rw [h2] at h
        simp only [Except.bind] at h
        cases h3 : readLE 4 f2 with
        | error e => rw [h3] at h; simp [Except.bind] at h
        | ok p3 =>
          obtain ⟨wid, f3⟩ := p3
          rw [h3] at h
          simp only [Except.bind] at h
          by_cases hw : wid ≠ waveFormId
          · rw [if_pos hw] at h
            simp [throw, throwThe, MonadExceptOf.throw] at h
          · rw [if_neg hw] at h
            cases h4 : scanChunks (b.length + 1) ⟨0, 0, none, 0⟩ f3 with
            | error e => rw [h4] at h; simp [Except.bind] at h
            | ok p4 =>
              obtain ⟨v', r, fc, f4⟩ := p4
              rw [h4] at h
              simp only [Except.bind, pure, Except.pure] at h
              obtain ⟨hfc, hcc⟩ := scanChunks_frameCount _ _ _ _ _ _ _ h4
              injection h with h'
              rw [← h']
              exact ⟨hfc, hcc⟩

lemma lor_high {w : ℕ} (hw : w < 16777216) : w ||| 4278190080 = w + 4278190080 := by
  apply Nat.eq_of_testBit_eq
  intro i
  rw [Nat.testBit_lor, Nat.testBit_to_div_mod, Nat.testBit_to_div_mod,
    Nat.testBit_to_div_mod]
  rcases Nat.lt_or_ge i 24 with hi | hi
  · have h2p : (2 : ℕ) * 2 ^ (23 - i) * 2 ^ i = 2 ^ 24 := by
      rw [← pow_succ' 2 (23 - i), ← pow_add]
      congr 1
      omega
    have hdecomp : (4278190080 : ℕ) = 2 * (255 * 2 ^ (23 - i)) * 2 ^ i := by
      have hre : (2 : ℕ) * (255 * 2 ^ (23 - i)) * 2 ^ i =
          255 * (2 * 2 ^ (23 - i) * 2 ^ i) := by ring
      rw [hre, h2p]
      norm_num
    have e1 : (4278190080 : ℕ) / 2 ^ i % 2 = 0 := by
      rw [hdecomp, Nat.mul_div_cancel _ (Nat.pos_pow_of_pos i (by norm_num))]
      exact Nat.mul_mod_right 2 _
    have e2 : (w + 4278190080) / 2 ^ i % 2 = w / 2 ^ i % 2 := by
      conv_lhs => rw [hdecomp]
      rw [Nat.add_mul_div_right _ _ (Nat.pos_pow_of_pos i (by norm_num))]
      exact Nat.add_mul_mod_self_left _ 2 _
    rw [e1, e2]
    simp
  · have hw2 : w / 2 ^ i = 0 :=
      Nat.div_eq_of_lt (lt_of_lt_of_le hw
        (Nat.pow_le_pow_right (show 0 < 2 by norm_num) hi))
    have e3 : (w + 4278190080) / 2 ^ i = 4278190080 / 2 ^ i := by
      have hsplit : (2 : ℕ) ^ i = 2 ^ 24 * 2 ^ (i - 24) := by
        rw [← pow_add]
        congr 1
        omega
      rw [hsplit, ← Nat.div_div_eq_div_mul, ← Nat.div_div_eq_div_mul]
      congr 1
      have hc : (4278190080 : ℕ) = 255 * 2 ^ 24 := by norm_num
      rw [hc, Nat.add_mul_div_right _ _ (show 0 < (2 : ℕ) ^ 24 by positivity),
        Nat.div_eq_of_lt (show w < 2 ^ 24 by norm_num at hw ⊢; omega),
        Nat.mul_div_cancel _ (show 0 < (2 : ℕ) ^ 24 by positivity)]
    rw [e3, hw2]
    simp

lemma fixTwosComplement_spec (w : ℕ) (hw : w < 16777216) :
    fixTwosComplement w = if 8388608 ≤ w then (w : ℤ) - 16777216 else (w : ℤ) := by
  rw [fixTwosComplement]
  have hand := Nat.and_two_pow w 23
  norm_num at hand
  by_cases hb : 8388608 ≤ w
  · have ht : Nat.testBit w 23 = true := by
      rw [Nat.testBit_to_div_mod]
      have hdiv : w / 8388608 = 1 := by omega
      norm_num [hdiv]
    rw [if_pos hb, if_pos (by rw [hand, ht]; norm_num)]
    rw [lor_high hw, toSigned32, if_neg (by omega)]
    push_cast
    ring
  · have ht : Nat.testBit w 23 = false := by
      rw [Nat.testBit_to_div_mod]
      have hdiv : w / 8388608 = 0 := by omega
      norm_num [hdiv]
    rw [if_neg hb, if_neg (by rw [hand, ht]; norm_num)]

/-! The claim theorems. -/

/-- C1: the claim says a PCM fmt chunk with bits-per-sample ≤ 8 derives
UInt8 with 1 byte per sample.  The code tests `bitsPerSample == 8`, so the
7-bit container `pcm7bitFile` is accepted as Int16 with 2 bytes per
sample instead — contradicting the source's own comment that sub-byte
depths are treated like the next-larger byte size. -/
theorem construct_pcm7bit_yields_int16 :
    WaveFileReader.construct pcm7bitFile = .ok pcm7bitReader ∧
      deriveSampleFormat 1 1 2 7 = .ok (SampleFormat.Int16, 2) ∧
      pcm7bitReader.sampleFormat ≠ SampleFormat.UInt8 :=
  ⟨rfl, rfl, by decide⟩

/-- C2 (counterexample): the claim says no stream is ever constructed
with bytesPerSample × channelCount ≠ frameSize.  `pcmOddFrameFile`
declares frame size 5 with 2 channels of 16-bit samples; the truncated
check `2 = 5 / 2` passes, and a stream with 2 × 2 ≠ 5 is constructed. -/
theorem construct_mismatchedFrameSize_ok :
    WaveFileReader.construct pcmOddFrameFile = .ok oddFrameReader ∧
      formatBytesPerSample oddFrameReader.sampleFormat * oddFrameReader.channelCount ≠ 5 :=
  ⟨rfl, by decide⟩

/-- C2 (amended): for a PCM fmt chunk with a nonzero channel count, any
accepted derivation satisfies only `bytesPerSample = frameSize /
channelCount` with truncated division (so `2 = 5 / 2` is accepted even
though 2 × 2 ≠ 5), and a Float fmt chunk of depth 32 is accepted with no
frame-size check at all — including the absurd `floatBadOrgFile`. -/
theorem organization_check_truncated (cc fs bits : ℕ) (hcc : cc ≠ 0) :
    (∀ sf bps, deriveSampleFormat 1 cc fs bits = .ok (sf, bps) → bps = fs / cc) ∧
      deriveSampleFormat 1 2 5 16 = .ok (SampleFormat.Int16, 2) ∧
      (∀ cc2 fs2, deriveSampleFormat 3 cc2 fs2 32 = .ok (SampleFormat.Float32, 4)) ∧
      WaveFileReader.construct floatBadOrgFile = .ok floatBadOrgReader := by
  refine ⟨?_, rfl, fun cc2 fs2 => rfl, rfl⟩
  intro sf bps h
  rw [deriveSampleFormat, if_pos rfl] at h
  simp only [Bind.bind, Except.bind] at h
  split_ifs at h <;>
    simp_all [pure, Except.pure, throw, throwThe, MonadExceptOf.throw] <;>
    (split at h <;> simp_all)

/-- C2 (witness): the truncated organization check at work on concrete
values. -/
theorem organization_check_truncated_witness :
    deriveSampleFormat 1 2 5 16 = .ok (SampleFormat.Int16, 2) :=
  (organization_check_truncated 2 5 16 (by decide)).2.1

/-- C3: the claim says a fmt chunk is always processed before the data
chunk is accepted, so `chunkSize / bytesPerSample` never divides by zero.
The code has no such guard: on `dataFirstFile` (whose data chunk precedes
any fmt chunk) it reaches the division with `bytesPerSample = 0`,
dividing by zero (undefined behaviour in the C++ source, modelled as the
`divByZero` outcome). -/
theorem construct_dataFirst_divByZero :
    WaveFileReader.construct dataFirstFile = .error .divByZero := rfl

/-- C4 (counterexample): the claim says the initial remainingSampleCount
equals frameCount × channelCount.  `pcmPartialFrameFile` has a 3-byte
data chunk with 2 channels of 1-byte samples: remainingSamples = 3 but
frameCount × channelCount = 1 × 2 = 2. -/
theorem construct_partialFrame_mismatch :
    WaveFileReader.construct pcmPartialFrameFile = .ok partialFrameReader ∧
      partialFrameReader.remainingSamples ≠
        partialFrameReader.frameCount * partialFrameReader.channelCount :=
  ⟨rfl, by decide⟩

/-- C4 (amended): `getNextSample` returns "no more" exactly when
`remainingSamples` is zero; each successful call decrements
`remainingSamples` by exactly one and keeps it nonnegative; every
constructed stream satisfies `frameCount = remainingSamples /
channelCount` (truncated division — equality with frameCount ×
channelCount holds only when channelCount divides the sample count); and
from any state with `remainingSamples = n` and enough data bytes, exactly
`n` successful calls precede the first "no more". -/
theorem remainingSamples_decode_spec :
    (∀ s, getNextSample s = .noMore ↔ s.remainingSamples = 0) ∧
      (∀ s q s', getNextSample s = .next q s' →
        s'.remainingSamples = s.remainingSamples - 1 ∧
          (0 ≤ s.remainingSamples → 0 ≤ s'.remainingSamples)) ∧
      (∀ b s, WaveFileReader.construct b = .ok s →
        s.frameCount = Int.tdiv s.remainingSamples s.channelCount ∧
          s.channelCount ≠ 0) ∧
      (∀ (n : ℕ) (s : WaveFileReader), s.remainingSamples = (n : ℤ) →
        0 ≤ s.file.pos →
        s.file.pos.toNat + n * formatBytesPerSample s.sampleFormat ≤
          s.file.bytes.length →
        (iterateSamples n s).map (fun t => getNextSample t) = some .noMore) := by
  refine ⟨getNextSample_noMore_iff, ?_, construct_ok_inv, iterate_exact⟩
  intro s q s' h
  obtain ⟨h1, _, _, _⟩ := getNextSample_next_inv h
  have hne := getNextSample_next_ne_zero h
  exact ⟨h1, fun h0 => by omega⟩

/-- C4 (witness): the decode-count contract on concrete streams — the
three-sample stream `uint8CountStream` yields exactly three samples
before "no more", a successful call decrements the counter, and the
stream of `oddChunkFile` satisfies the frameCount relation. -/
theorem remainingSamples_decode_spec_witness :
    (getNextSample exhaustedStream = .noMore ↔ exhaustedStream.remainingSamples = 0) ∧
      (iterateSamples 3 uint8CountStream).map (fun t => getNextSample t) =
        some .noMore ∧
      oddChunkReader.frameCount =
        Int.tdiv oddChunkReader.remainingSamples oddChunkReader.channelCount :=
  ⟨remainingSamples_decode_spec.1 exhaustedStream,
   remainingSamples_decode_spec.2.2.2 3 uint8CountStream rfl (by decide) (by decide),
   (remainingSamples_decode_spec.2.2.1 oddChunkFile oddChunkReader rfl).1⟩

/-- C5: the Int24 two's-complement fix-up equals sign extension — for
every zero-extended 24-bit value, `raw |= 0xFF000000` when bit 23 is set
yields the two's-complement value; consequently the payload bytes
FF FF 7F (value 0x7FFFFF) decode to exactly 1 and the bytes 00 00 80
(value 0x800000) decode to exactly -1. -/
theorem int24_sign_extension_decode :
    (∀ w : ℕ, w < 16777216 →
      fixTwosComplement w = if 8388608 ≤ w then (w : ℤ) - 16777216 else (w : ℤ)) ∧
      getNextSample int24MaxStream =
        .next 1 ⟨.Int24, 1, 8000, 1, 0, ⟨[255, 255, 127], 3⟩⟩ ∧
      getNextSample int24MinStream =
        .next (-1) ⟨.Int24, 1, 8000, 1, 0, ⟨[0, 0, 128], 3⟩⟩ := by
  refine ⟨fixTwosComplement_spec, ?_, ?_⟩
  · have h1 : getNextSample int24MaxStream =
        .next (toNormalizedFloat (fixTwosComplement (leBytesAt [255, 255, 127] 0 3))
          (-8388608) 8388607) ⟨.Int24, 1, 8000, 1, 0, ⟨[255, 255, 127], 3⟩⟩ := rfl
    have hfix : fixTwosComplement (leBytesAt [255, 255, 127] 0 3) = 8388607 := by decide
    rw [h1, hfix]
    simp [toNormalizedFloat, fsub32, fmul32, fdiv32, floatOfInt, rnd32, floorLog2,
      log2fuel, halfEvenDiv, F32.toQ, pow2z]
  · have h1 : getNextSample int24MinStream =
        .next (toNormalizedFloat (fixTwosComplement (leBytesAt [0, 0, 128] 0 3))
          (-8388608) 8388607) ⟨.Int24, 1, 8000, 1, 0, ⟨[0, 0, 128], 3⟩⟩ := rfl
    have hfix : fixTwosComplement (leBytesAt [0, 0, 128] 0 3) = -8388608 := by decide
    rw [h1, hfix]
    simp [toNormalizedFloat, fsub32, fmul32, fdiv32, floatOfInt, rnd32, floorLog2,
      log2fuel, halfEvenDiv, F32.toQ, pow2z]

/-- C5 (witness): the sign-extension characterization applied at the two
boundary values. -/
theorem int24_sign_extension_decode_witness :
    fixTwosComplement 8388608 = -8388608 ∧ fixTwosComplement 8388607 = 8388607 := by
  have h1 := int24_sign_extension_decode.1 8388608 (by norm_num)
  have h2 := int24_sign_extension_decode.1 8388607 (by norm_num)
  rw [if_pos (by norm_num)] at h1
  rw [if_neg (by norm_num)] at h2
  exact ⟨by rw [h1]; norm_num, h2⟩

/-- C6: a Float32 sample is the raw 4-byte IEEE-754 value — the decode
step hands back exactly the value encoded by the bit pattern read, with
no rescaling and no clamping; the pattern of 0.5 (0x3F000000) decodes to
exactly 1/2, and the out-of-range pattern of 2.0 (0x40000000) is passed
through as 2. -/
theorem float32_passthrough (s : WaveFileReader) (w : ℕ) (f' : WFile)
    (hf : s.sampleFormat = .Float32) (hr : s.remainingSamples ≠ 0)
    (hread : readLE 4 s.file = .ok (w, f')) :
    getNextSample s = .next (bitsToFloat32 w)
        { s with remainingSamples := s.remainingSamples - 1, file := f' } ∧
      bitsToFloat32 1056964608 = 1 / 2 ∧ bitsToFloat32 1073741824 = 2 := by
  refine ⟨?_, ?_, ?_⟩
  · rw [getNextSample, if_neg hr]
    simp only [hf, hread]
  · simp [bitsToFloat32, pow2z]
    norm_num
  · simp [bitsToFloat32, pow2z]
    norm_num

/-- C6 (witness): decoding the concrete one-sample Float32 stream whose
payload is the bit pattern of 0.5. -/
theorem float32_passthrough_witness :
    getNextSample floatHalfStream = .next (bitsToFloat32 1056964608)
      ⟨.Float32, 1, 8000, 1, 0, ⟨[0, 0, 0, 63], 4⟩⟩ :=
  (float32_passthrough floatHalfStream 1056964608 ⟨[0, 0, 0, 63], 4⟩ rfl
    (by decide) rfl).1

/-- C7: `toNormalizedFloat` is exact at both endpoints of every supported
integer format's range — (0, 255), (-32768, 32767) and
(-8388608, 8388607) map min to exactly -1 and max to exactly 1 under
binary32 arithmetic. -/
theorem toNormalizedFloat_exact_at_endpoints :
    toNormalizedFloat 0 0 255 = -1 ∧ toNormalizedFloat 255 0 255 = 1 ∧
      toNormalizedFloat (-32768) (-32768) 32767 = -1 ∧
      toNormalizedFloat 32767 (-32768) 32767 = 1 ∧
      toNormalizedFloat (-8388608) (-8388608) 8388607 = -1 ∧
      toNormalizedFloat 8388607 (-8388608) 8388607 = 1 := by
  refine ⟨?_, ?_, ?_, ?_, ?_, ?_⟩ <;>
    simp [toNormalizedFloat, fsub32, fmul32, fdiv32, floatOfInt, rnd32, floorLog2,
      log2fuel, halfEvenDiv, F32.toQ, pow2z]

/-- C8: a chunk whose id is neither `fmt ` nor `data` is skipped by
advancing the cursor exactly `roundToEven chunkSize` bytes past the
8-byte chunk header, where `roundToEven i` is the least even integer ≥ i
(so declared size 5 is skipped as 6); end to end, `oddChunkFile` (with an
odd 5-byte LIST chunk) parses with the cursor landing exactly on the next
chunk id. -/
theorem unknown_chunk_skip_rounds_to_even (fuel : ℕ) (v : ScanVars)
    (f f1 f2 f3 : WFile) (cid szU : ℕ)
    (h1 : readLE 4 f = .ok (cid, f1)) (h2 : readLE 4 f1 = .ok (szU, f2))
    (hfmt : cid ≠ fmtId) (hdata : cid ≠ dataId)
    (hseek : seekRel (roundToEven (toSigned32 szU)) f2 = .ok f3) :
    scanChunks (fuel + 1) v f = scanChunks fuel v f3 ∧
      f3.pos = f.pos + 8 + roundToEven (toSigned32 szU) ∧
      (∀ i : ℤ, 2 ∣ roundToEven i ∧ i ≤ roundToEven i ∧ roundToEven i ≤ i + 1) ∧
      roundToEven 5 = 6 ∧
      WaveFileReader.construct oddChunkFile = .ok oddChunkReader := by
  refine ⟨?_, ?_, ?_, by decide, rfl⟩
  · rw [scanChunks, h1]
    simp only [Bind.bind, Except.bind]
    rw [h2]
    simp only [Except.bind]
    rw [if_neg hfmt, if_neg hdata, hseek]
  · obtain ⟨hb1, hp1⟩ := readLE_ok_inv h1
    obtain ⟨hb2, hp2⟩ := readLE_ok_inv h2
    obtain ⟨hb3, hp3⟩ := seekRel_ok_inv hseek
    omega
  · intro i
    rw [roundToEven, Int.fdiv_eq_ediv _ (by norm_num)]
    omega

/-- C8 (witness): one scan step over the odd LIST chunk of
`oddChunkFile` — the cursor moves from 12 to 12 + 8 + 6 = 26. -/
theorem unknown_chunk_skip_witness :
    scanChunks 60 ⟨0, 0, none, 0⟩ ⟨oddChunkFile, 12⟩ =
        scanChunks 59 ⟨0, 0, none, 0⟩ ⟨oddChunkFile, 26⟩ ∧
      (⟨oddChunkFile, 26⟩ : WFile).pos =
        (⟨oddChunkFile, 12⟩ : WFile).pos + 8 + roundToEven (toSigned32 5) :=
  ⟨(unknown_chunk_skip_rounds_to_even 59 ⟨0, 0, none, 0⟩ ⟨oddChunkFile, 12⟩
      ⟨oddChunkFile, 16⟩ ⟨oddChunkFile, 20⟩ ⟨oddChunkFile, 26⟩ (fourcc 76 73 83 84) 5
      rfl rfl (by decide) (by decide) rfl).1,
   (unknown_chunk_skip_rounds_to_even 59 ⟨0, 0, none, 0⟩ ⟨oddChunkFile, 12⟩
      ⟨oddChunkFile, 16⟩ ⟨oddChunkFile, 20⟩ ⟨oddChunkFile, 26⟩ (fourcc 76 73 83 84) 5
      rfl rfl (by decide) (by decide) rfl).2.1⟩

/-- C9: construction fails with a FormatError whenever the first four
bytes are not the RIFF signature, and fails with a FormatError naming the
unexpected tag whenever the form-type field is not WAVE; no stream is
returned in either case. -/
theorem header_validation_errors (b : List ℕ) :
    (4 ≤ b.length → leBytesAt b 0 4 ≠ riffId →
      WaveFileReader.construct b = .error .notRiff) ∧
      (12 ≤ b.length → leBytesAt b 0 4 = riffId → leBytesAt b 8 4 ≠ waveFormId →
        WaveFileReader.construct b = .error (.notWave (leBytesAt b 8 4))) := by
  constructor
  · intro hlen hne
    rw [WaveFileReader.construct]
    rw [readLE_ok 4 b 0 0 (by norm_num) (by omega)]
    simp only [Bind.bind, Except.bind]
    rw [if_pos hne]
    rfl
  · intro hlen heq hne
    rw [WaveFileReader.construct]
    rw [readLE_ok 4 b 0 0 (by norm_num) (by omega)]
    simp only [Bind.bind, Except.bind]
    rw [if_neg (not_not_intro heq)]
    rw [readLE_ok 4 b _ 4 (by norm_num) (by omega)]
    simp only [Except.bind]
    rw [readLE_ok 4 b _ 8 (by norm_num) (by omega)]
    simp only [Except.bind]
    rw [if_pos hne]
    rfl

/-- C9 (witness): a "RIFX" file is rejected as non-RIFF, and a
RIFF/"AIFF" file is rejected with the unexpected form-type tag named. -/
theorem header_validation_errors_witness :
    WaveFileReader.construct rifxFile = .error .notRiff ∧
      WaveFileReader.construct riffAiffFile =
        .error (.notWave (leBytesAt riffAiffFile 8 4)) :=
  ⟨(header_validation_errors rifxFile).1 (by decide) (by decide),
   (header_validation_errors riffAiffFile).2 (by decide) (by decide) (by decide)⟩

/-- C10: with `remainingSamples = 0`, `getNextSample` returns "no more"
immediately — no byte is read (the result does not depend on the file
contents or cursor) and no state is produced or modified. -/
theorem exhausted_getNextSample_pure (s : WaveFileReader) (f' : WFile)
    (h : s.remainingSamples = 0) :
    getNextSample s = .noMore ∧ getNextSample { s with file := f' } = .noMore := by
  constructor <;> simp [getNextSample, h]

/-- C10 (witness): the exhausted stream answers "no more" regardless of
the file attached to it. -/
theorem exhausted_getNextSample_pure_witness :
    getNextSample exhaustedStream = .noMore ∧
      getNextSample ⟨.UInt8, 1, 8000, 0, 0, ⟨[1, 2, 3], 7⟩⟩ = .noMore :=
  exhausted_getNextSample_pure exhaustedStream ⟨[1, 2, 3], 7⟩ rfl

end WaveVerify
